import Mathlib

/-!
Verification development for the domino server (src/server/gameEngine.ts,
src/server/roomManager.ts, src/server/types.ts).

The TypeScript engine mutates a single GameState record in place; here the
same operations are shallowly embedded as pure functions from state to
state.  JS numbers that only ever hold small integers are modelled as Int
(pip values use the -1 sentinel for an empty board exactly as the source
does), counters as Nat, socket ids as String.  The random shuffle and the
random choice inside findAnyValidMove are abstracted as parameters: the
deck handed to startHand, and the chosen move handed to the timeout
handler.  Only the nullity of findAnyValidMove matters to passTurn, and
that nullity is deterministic; it is embedded as hasValidMove below.
-/

namespace Domino

/-- Teams A and B (types.ts, field team of Player). -/
inductive Team where
  | A
  | B
deriving DecidableEq, Repr

/-- Win reasons recorded in GameState.winReason (types.ts). -/
inductive WinReason where
  | domino
  | tranque
  | capicua
deriving DecidableEq, Repr

/-- The type argument of handleWin (literal union of domino and tranque). -/
inductive WinType where
  | domino
  | tranque
deriving DecidableEq, Repr

/-- Requested attachment side of placePiece. -/
inductive Side where
  | head
  | tail
deriving DecidableEq, Repr

/-- A domino tile: Piece = [number, number] in types.ts. -/
abbrev Piece := Int × Int

/-- Player record (types.ts).  The extensionUsed flag of the interface is
never set by any modelled operation (the extension feature is removed in
the source) and is omitted. -/
structure Player where
  id : String
  name : String
  hand : List Piece
  score : Int
  team : Team
  position : Nat
deriving DecidableEq, Repr

/-- The dedicated per-team score record GameState.teamScores. -/
structure TeamScores where
  A : Int
  B : Int
deriving DecidableEq, Repr

/-- Read the score of one team. -/
def TeamScores.get (t : TeamScores) : Team → Int
  | Team.A => t.A
  | Team.B => t.B

/-- Add points to the score of one team. -/
def TeamScores.add (t : TeamScores) : Team → Int → TeamScores
  | Team.A, n => { t with A := t.A + n }
  | Team.B, n => { t with B := t.B + n }

/-- GameState (types.ts) together with the private engine field
lastWinnerId of class GameEngine.  The board entries of the source are
one-field objects wrapping a Piece, flattened here to the Piece itself. -/
structure GameState where
  board : List Piece
  players : List Player
  currentTurnPlayerId : String
  turnDeadline : Int
  winnerTeam : Option Team
  consecutivePasses : Nat
  handNumber : Nat
  handWinnerId : Option String
  winReason : Option WinReason
  handPoints : Option Int
  teamScores : TeamScores
  lastWinnerId : Option String
deriving DecidableEq, Repr

/-- Swap the two faces of a tile (the flip step of placePiece). -/
def swapP (p : Piece) : Piece := (p.2, p.1)

/-- sumHand: pip sum of a hand (gameEngine.ts line 549). -/
def sumHand (hand : List Piece) : Int :=
  hand.foldl (fun a p => a + p.1 + p.2) 0

/-- getOpenEnds (gameEngine.ts line 180): (-1,-1) on an empty board, else
the first face of the first tile and the second face of the last tile. -/
def getOpenEnds (board : List Piece) : Int × Int :=
  match board.head?, board.getLast? with
  | some h, some t => (h.1, t.2)
  | _, _ => (-1, -1)

/-- Does one face of the tile equal the given end value. -/
def matchesEnd (v : Int) (p : Piece) : Bool :=
  p.1 = v || p.2 = v

/-- Nullity of findAnyValidMove (gameEngine.ts line 207): true iff the
search returns a move.  Empty board in the first hand requires the
double six; empty board in later hands accepts any tile of a nonempty
hand; otherwise some tile must match the head or the tail value.  The
random choice among the found moves does not affect nullity. -/
def hasValidMove (board : List Piece) (handNumber : Nat) (hand : List Piece) : Bool :=
  let e := getOpenEnds board
  if e.1 = -1 then
    if handNumber = 1 then
      hand.any (fun p => p.1 = 6 && p.2 = 6)
    else
      !hand.isEmpty
  else
    hand.any (fun p => matchesEnd e.1 p || matchesEnd e.2 p)

/-- getCurrentPlayer (gameEngine.ts line 175): first player whose id is
the current turn id. -/
def getCurrentPlayer (s : GameState) : Option Player :=
  s.players.find? (fun p => p.id = s.currentTurnPlayerId)

/-- startTurnTimer (gameEngine.ts line 108): the deadline is the arming
time plus a hard coded 5000 ms (line 116); the configured TURN_DURATION
of the constructor is not consulted there. -/
def startTurnTimer (now : Int) (s : GameState) : GameState :=
  { s with turnDeadline := now + 5000 }

/-- Update the first player with the given id, as the source mutates the
object returned by players.find. -/
def updateFirst (pid : String) (f : Player → Player) : List Player → List Player
  | [] => []
  | p :: ps => if p.id = pid then f p :: ps else p :: updateFirst pid f ps

/-- Index into a list with a JS style signed index: a negative index reads
undefined in JS; that (crashing) path is modelled as none. -/
def jsGet (l : List α) (i : Int) : Option α :=
  if 0 ≤ i then l.get? i.toNat else none

/-- nextTurn (gameEngine.ts line 441): no op once the match is resolved;
otherwise advance to the next list index modulo the player count and
re-arm the timer.  findIndex yields -1 when the current id is absent,
making the next index 0, as in JS.  On an empty player list the source
would crash dereferencing undefined; that unreachable path is modelled as
the identity. -/
def nextTurn (now : Int) (s : GameState) : GameState :=
  if s.winnerTeam.isSome then s
  else
    match s.players with
    | [] => s
    | _ :: _ =>
      let currentIdx : Int :=
        match s.players.findIdx? (fun p => p.id = s.currentTurnPlayerId) with
        | some i => (i : Int)
        | none => -1
      let nextIdx := ((currentIdx + 1) % (s.players.length : Int)).toNat
      match s.players.get? nextIdx with
      | some p => startTurnTimer now { s with currentTurnPlayerId := p.id }
      | none => startTurnTimer now s

/-- handleWin (gameEngine.ts line 455).  The winner argument is the found
player object of the caller; only its id and team are read.  Points are
the pip sum over every hand still held (the winning hand is already empty
in the domino path), plus 30 for a capicua domino win.  The dedicated
team score and the individual score of the winner both increase; at 200
or more team points the match is resolved, otherwise the hand number
advances and the winner is remembered as the next starter. -/
def handleWin (winner : Player) (ty : WinType) (isCapicua : Bool) (s : GameState) : GameState :=
  let s1 : GameState := { s with handWinnerId := some winner.id }
  let totalTable : Int := s1.players.foldl (fun a p => a + sumHand p.hand) 0
  let bonus : Int := if ty = WinType.domino && isCapicua then 30 else 0
  let reason : WinReason :=
    if ty = WinType.domino && isCapicua then WinReason.capicua
    else match ty with
      | WinType.domino => WinReason.domino
      | WinType.tranque => WinReason.tranque
  let pointsToAdd : Int := totalTable + bonus
  let newScores : TeamScores := s1.teamScores.add winner.team pointsToAdd
  let players1 : List Player :=
    updateFirst winner.id (fun p => { p with score := p.score + pointsToAdd }) s1.players
  let s2 : GameState :=
    { s1 with winReason := some reason, teamScores := newScores,
              handPoints := some pointsToAdd, players := players1 }
  if newScores.get winner.team ≥ 200 then
    { s2 with winnerTeam := some winner.team }
  else
    { s2 with lastWinnerId := some winner.id, handNumber := s2.handNumber + 1 }

/-- handleTranque (gameEngine.ts line 514): the blocker index is the
current index minus 4 plus the player count, reduced with the JS percent
operator (truncated remainder); the opponent sits one after the blocker.
Lower pip sum wins, ties go to the opponent.  Out of range indices would
crash in JS and are modelled as the identity. -/
def handleTranque (s : GameState) : GameState :=
  let len : Int := s.players.length
  let currentIdx : Int :=
    match s.players.findIdx? (fun p => p.id = s.currentTurnPlayerId) with
    | some i => (i : Int)
    | none => -1
  let trancadorIdx := (currentIdx - 4 + len).tmod len
  match jsGet s.players trancadorIdx with
  | none => s
  | some trancador =>
    let opponentIdx := (trancadorIdx + 1).tmod len
    match jsGet s.players opponentIdx with
    | none => s
    | some opponent =>
      let scoreA := sumHand trancador.hand
      let scoreB := sumHand opponent.hand
      let winner := if scoreA < scoreB then trancador
                    else if scoreB < scoreA then opponent
                    else opponent
      handleWin winner WinType.tranque false s

/-- The code of passTurn after the pase redondo block (gameEngine.ts
lines 430 to 438): at 4 passes resolve the tranque, otherwise advance. -/
def passContinue (now : Int) (s1 : GameState) : GameState :=
  if s1.consecutivePasses = 4 then handleTranque s1
  else nextTurn now s1

/-- passTurn (gameEngine.ts line 368).  Rejected (state unchanged) when
the caller is not the current turn or the current player still holds a
legal move.  Otherwise the pass counter is bumped; at exactly 3, if the
player found for the current id still has a legal move, the pase redondo
branch runs (the 170 gate on the summed individual scores of the team,
then +30 to the individual score of each team member, counter reset, and
timer re-arm without advancing the turn); at 4 the hand resolves as a
tranque; otherwise the turn advances. -/
def passTurn (now : Int) (playerId : String) (s : GameState) : GameState :=
  if playerId ≠ s.currentTurnPlayerId then s
  else
    let guardBlocked :=
      match getCurrentPlayer s with
      | some player => hasValidMove s.board s.handNumber player.hand
      | none => false
    if guardBlocked then s
    else
      let s1 : GameState := { s with consecutivePasses := s.consecutivePasses + 1 }
      if s1.consecutivePasses = 3 then
        match getCurrentPlayer s1 with
        | some cp =>
          if hasValidMove s1.board s1.handNumber cp.hand then
            let teamScore : Int := (s1.players.filter (fun p => p.team = cp.team)).foldl
              (fun a p => a + p.score) 0
            if teamScore ≥ 170 then
              startTurnTimer now { s1 with consecutivePasses := 0 }
            else
              let players1 := s1.players.map
                (fun p => if p.team = cp.team then { p with score := p.score + 30 } else p)
              startTurnTimer now { s1 with players := players1, consecutivePasses := 0 }
          else passContinue now s1
        | none => passContinue now s1
      else passContinue now s1

/-- The predicate of the hand search of placePiece (line 270): the held
tile equals the submitted one in either orientation. -/
def sameTile (rawPiece : Piece) (p : Piece) : Bool :=
  (p.1 = rawPiece.1 && p.2 = rawPiece.2) || (p.1 = rawPiece.2 && p.2 = rawPiece.1)

/-- The first-piece enforcement of placePiece (line 280): in the first
hand a holder of the double six may only open with it. -/
def violatesOpeningRule (handNumber : Nat) (hand : List Piece) (piece : Piece) : Bool :=
  handNumber = 1 &&
  hand.any (fun p => p.1 = 6 && p.2 = 6) &&
  !(piece.1 = 6 && piece.2 = 6)

/-- The orientation and attachment step of placePiece (lines 316 to 338):
on the head side the tile is kept if its second face equals the head
value and flipped if its first face does, then prepended; on the tail
side symmetrically, then appended; a tile matching neither way is
rejected (none). -/
def orientPlace : Side → Piece → Int → Int → List Piece → Option (Piece × List Piece)
  | Side.head, piece, head, _, board =>
    if piece.2 = head then some (piece, piece :: board)
    else if piece.1 = head then some (swapP piece, swapP piece :: board)
    else none
  | Side.tail, piece, _, tail, board =>
    if piece.1 = tail then some (piece, board ++ [piece])
    else if piece.2 = tail then some (swapP piece, board ++ [swapP piece])
    else none

/-- The capicua test of placePiece (line 348) on the tile as held and the
pre-placement open ends. -/
def capicuaCheck (piece : Piece) (head tail : Int) : Bool :=
  !(piece.1 = piece.2) &&
  (!(head = -1) &&
    ((piece.1 = head && piece.2 = tail) ||
     (piece.2 = head && piece.1 = tail) ||
     head = tail))

/-- placePiece (gameEngine.ts line 260) as a pure function returning the
boolean result of the source together with the next state.  Every
rejection path returns the state unchanged.  On a non-empty board the
double match override forces the tail side, then the tile is oriented so
the matching face touches the chosen end; the capicua test uses the tile
as held and the pre-placement open ends. -/
def placePiece (now : Int) (playerId : String) (rawPiece : Piece) (side : Side)
    (s : GameState) : Bool × GameState :=
  if playerId ≠ s.currentTurnPlayerId then (false, s)
  else
    match s.players.find? (fun p => p.id = playerId) with
    | none => (false, s)
    | some player =>
      match player.hand.findIdx? (sameTile rawPiece) with
      | none => (false, s)
      | some pieceIdx =>
        let piece := player.hand.getD pieceIdx (0, 0)
        if s.board.isEmpty then
          if violatesOpeningRule s.handNumber player.hand piece then
            (false, s)
          else
            let newHand := player.hand.eraseIdx pieceIdx
            let s1 : GameState :=
              { s with board := s.board ++ [piece],
                       players := updateFirst playerId
                         (fun q => { q with hand := q.hand.eraseIdx pieceIdx }) s.players,
                       consecutivePasses := 0 }
            if newHand.isEmpty then
              (true, handleWin player WinType.domino false s1)
            else
              (true, nextTurn now s1)
        else
          let e := getOpenEnds s.board
          let head := e.1
          let tail := e.2
          let matchesHead := piece.1 = head || piece.2 = head
          let matchesTail := piece.1 = tail || piece.2 = tail
          let side1 := if matchesHead && matchesTail then Side.tail else side
          match orientPlace side1 piece head tail s.board with
          | none => (false, s)
          | some (_, board1) =>
            let newHand := player.hand.eraseIdx pieceIdx
            let s1 : GameState :=
              { s with board := board1,
                       players := updateFirst playerId
                         (fun q => { q with hand := q.hand.eraseIdx pieceIdx }) s.players,
                       consecutivePasses := 0 }
            if newHand.isEmpty then
              (true, handleWin player WinType.domino (capicuaCheck piece head tail) s1)
            else
              (true, nextTurn now s1)

/-- A pass issued for the player currently on turn (what the timeout path
and the four-pass trace of a tranque do). -/
def autoPass (now : Int) (s : GameState) : GameState :=
  passTurn now s.currentTurnPlayerId s

/-- handleTimeout (gameEngine.ts line 140), with the randomly selected
move of findAnyValidMove abstracted as the choice argument: some move
plays it, none passes.  A resolved match or a missing current player is a
no op. -/
def handleTimeoutWith (now : Int) (choice : Option (Piece × Side)) (s : GameState) : GameState :=
  if s.winnerTeam.isSome then s
  else
    match getCurrentPlayer s with
    | none => s
    | some player =>
      match choice with
      | some (pc, sd) => (placePiece now player.id pc sd s).2
      | none => passTurn now player.id s

/-- generateDeck (gameEngine.ts line 27): all pairs (i, j) with
0 ≤ i ≤ j ≤ 6 in loop order. -/
def generateDeck : List Piece :=
  (List.range 7).flatMap (fun i =>
    (List.range' i (7 - i)).map (fun j => ((i : Int), (j : Int))))

/-- The deal loop of startHand: each player in order takes the next 7
tiles of the shuffled deck (deck.splice(0,7)). -/
def dealPlayers (deck : List Piece) : List Player → List Player
  | [] => []
  | p :: ps => { p with hand := deck.take 7 } :: dealPlayers (deck.drop 7) ps

/-- First-hand starter search step 1 (line 64): first player holding the
double six. -/
def findDoubleSixHolder (players : List Player) : Option Player :=
  players.find? (fun p => p.hand.any (fun b => b.1 = 6 && b.2 = 6))

/-- First-hand fallback (line 72): walk d from 5 down to 0 and return the
first player holding the double d. -/
def findHighestDoubleHolder (players : List Player) : Option Player :=
  ([5, 4, 3, 2, 1, 0] : List Int).findSome? (fun d =>
    players.find? (fun p => p.hand.any (fun b => b.1 = d && b.2 = d)))

/-- startHand (gameEngine.ts line 46) with the shuffled deck passed in
(shuffleDeck is a uniform Fisher-Yates permutation of generateDeck).
Board, pass counter, hand winner and win reason are reset; winnerTeam,
teamScores, handPoints and handNumber are not touched; hands are dealt 7
tiles each in player order; the starter is the double six holder in the
first hand (falling back to the highest double, then to player 0) and the
remembered last winner in later hands (falling back to player 0); finally
the timer is armed.  The crash of the source on an empty player list is
modelled by leaving the turn id unchanged. -/
def startHandWith (deck : List Piece) (now : Int) (s : GameState) : GameState :=
  let s1 := { s with board := ([] : List Piece), consecutivePasses := 0,
                     handWinnerId := none, winReason := none }
  let s2 := { s1 with players := dealPlayers deck s1.players }
  let starterId : Option String :=
    if s2.handNumber = 1 then
      match findDoubleSixHolder s2.players with
      | some p => some p.id
      | none =>
        match findHighestDoubleHolder s2.players with
        | some p => some p.id
        | none => s2.players.head?.map Player.id
    else
      match s2.lastWinnerId with
      | some w =>
        match s2.players.find? (fun p => p.id = w) with
        | some _ => some w
        | none => s2.players.head?.map Player.id
      | none => s2.players.head?.map Player.id
  match starterId with
  | some pid => startTurnTimer now { s2 with currentTurnPlayerId := pid }
  | none => startTurnTimer now s2

/-- TURN_DURATION of the engine constructor (gameEngine.ts line 12):
(config.turnDuration or 15) seconds in milliseconds; the JS or-default
treats 0 as absent. -/
structure RoomConfig where
  maxPlayers : Nat
  isPrivate : Bool
  targetScore : Int
  turnDuration : Int
deriving DecidableEq, Repr

/-- Milliseconds computed by the constructor from the configuration. -/
def turnDurationMs (c : RoomConfig) : Int :=
  (if c.turnDuration = 0 then 15 else c.turnDuration) * 1000

/-- Room status (types.ts GameStatus). -/
inductive RoomStatus where
  | waiting
  | matchmaking
  | playing
  | finished
deriving DecidableEq, Repr

/-- Room record (types.ts), restricted to the data fields the modelled
room operations read or write; the engine handle, timers and transport
bookkeeping live outside the embedding. -/
structure Room where
  id : String
  hostId : String
  players : List Player
  spectators : List String
  status : RoomStatus
  config : RoomConfig
  invitedPlayers : List String
deriving DecidableEq, Repr

/-- createRoom (roomManager.ts line 8) with the generated short code
passed in: the host occupies seat 0 on team A and the default
configuration is installed. -/
def createRoom (rid hostId hostName : String) (isPrivate : Bool) : Room :=
  { id := rid,
    hostId := hostId,
    players := [{ id := hostId, name := hostName, hand := [], score := 0,
                  team := Team.A, position := 0 }],
    spectators := [],
    status := RoomStatus.waiting,
    config := { maxPlayers := 4, isPrivate := isPrivate, targetScore := 200,
                turnDuration := 15 },
    invitedPlayers := [] }

/-- joinRoom (roomManager.ts line 43) on a looked-up room: rejects when
the status is not joinable or the room is full; an already present id
returns the room unchanged; otherwise the seat is fixed by the join
order (0, 2, 1, 3) and the team by the seat parity. -/
def joinRoom (room : Room) (playerId playerName : String) (isInvited : Bool) : Option Room :=
  if room.status ≠ RoomStatus.waiting ∧ room.status ≠ RoomStatus.matchmaking then none
  else if room.players.length ≥ room.config.maxPlayers then none
  else if (room.players.find? (fun p => p.id = playerId)).isSome then some room
  else
    let joinOrder := room.players.length
    let position : Nat :=
      if joinOrder = 0 then 0
      else if joinOrder = 1 then 2
      else if joinOrder = 2 then 1
      else if joinOrder = 3 then 3
      else 0
    let team := if position = 0 ∨ position = 2 then Team.A else Team.B
    let newPlayer : Player :=
      { id := playerId, name := playerName, hand := [], score := 0,
        team := team, position := position }
    some { room with players := room.players ++ [newPlayer],
                     invitedPlayers :=
                       if isInvited then room.invitedPlayers ++ [playerId]
                       else room.invitedPlayers }

/-- A match state whose game is already resolved for team A with empty
hands, as left behind by a finished match. -/
def rState : GameState :=
  { board := [(2, 1)],
    players :=
      [{ id := "s0", name := "s0", hand := [], score := 0, team := Team.A, position := 0 },
       { id := "s1", name := "s1", hand := [(0, 0)], score := 0, team := Team.B, position := 1 },
       { id := "s2", name := "s2", hand := [(3, 3)], score := 0, team := Team.A, position := 2 },
       { id := "s3", name := "s3", hand := [(4, 4)], score := 0, team := Team.B, position := 3 }],
    currentTurnPlayerId := "s0", turnDeadline := 0, winnerTeam := some Team.A,
    consecutivePasses := 0, handNumber := 3, handWinnerId := some "s0",
    winReason := some WinReason.domino, handPoints := some 7,
    teamScores := { A := 205, B := 30 }, lastWinnerId := some "s0" }

/-- Claim C9: four successful joins into a fresh room assign the first
two identities seats 0 and 2 on team A and the next two identities seats
1 and 3 on team B, for every choice of identities, names and privacy
flags. -/
theorem join_order_fixed_partnership (rid h hn n2 n3 n4 : String) (ipriv i2 i3 i4 : Bool)
    (id2 id3 id4 : String)
    (hne2 : id2 ≠ h) (hne3a : id3 ≠ h) (hne3b : id3 ≠ id2)
    (hne4a : id4 ≠ h) (hne4b : id4 ≠ id2) (hne4c : id4 ≠ id3) :
    (((joinRoom (createRoom rid h hn ipriv) id2 n2 i2).bind
        (fun r => joinRoom r id3 n3 i3)).bind (fun r => joinRoom r id4 n4 i4)).map
      (fun r => r.players.map (fun p => (p.id, p.position, p.team))) =
    some [(h, 0, Team.A), (id2, 2, Team.A), (id3, 1, Team.B), (id4, 3, Team.B)] := by
  simp [createRoom, joinRoom, hne2, hne3a, hne3b, hne4a, hne4b, hne4c,
    Ne.symm hne2, Ne.symm hne3a, Ne.symm hne3b, Ne.symm hne4a, Ne.symm hne4b,
    Ne.symm hne4c]

/-- Witness for claim C9 at concrete identities. -/
theorem join_order_fixed_partnership_witness :
    (((joinRoom (createRoom "R" "h" "host" false) "a" "na" false).bind
        (fun r => joinRoom r "b" "nb" false)).bind (fun r => joinRoom r "c" "nc" true)).map
      (fun r => r.players.map (fun p => (p.id, p.position, p.team))) =
    some [("h", 0, Team.A), ("a", 2, Team.A), ("b", 1, Team.B), ("c", 3, Team.B)] :=
  join_order_fixed_partnership "R" "h" "host" "na" "nb" "nc" false false false true
    "a" "b" "c" (by decide) (by decide) (by decide) (by decide) (by decide) (by decide)

/-- Total number of tiles held across all hands. -/
def handTiles (players : List Player) : Nat :=
  (players.map (fun p => p.hand.length)).sum

/-- Pip sum of every tile still held across all hands. -/
def totalPips (players : List Player) : Int :=
  players.foldl (fun a p => a + sumHand p.hand) 0

/-! Helper lemmas about the embedding. -/

theorem foldl_add_eq_sum {α M : Type} [AddCommMonoid M] (g : α → M) :
    ∀ (l : List α) (c : M), l.foldl (fun a p => a + g p) c = c + (l.map g).sum := by
  intro l
  induction l with
  | nil => intro c; simp
  | cons p ps ih =>
    intro c
    simp only [List.foldl_cons, List.map_cons, List.sum_cons, ih, add_assoc]

theorem totalPips_eq_sum (players : List Player) :
    totalPips players = (players.map (fun p => sumHand p.hand)).sum := by
  unfold totalPips
  rw [foldl_add_eq_sum]
  simp

/-- Summing any additive measure over updateFirst: only the first player
carrying the id changes. -/
theorem updateFirst_map_sum {M : Type} [AddCommMonoid M] (g : Player → M)
    (pid : String) (f : Player → Player) :
    ∀ (l : List Player) (player : Player),
      l.find? (fun p => p.id = pid) = some player →
      ((updateFirst pid f l).map g).sum + g player = (l.map g).sum + g (f player) := by
  intro l
  induction l with
  | nil => intro player h; simp [List.find?] at h
  | cons p ps ih =>
    intro player h
    rw [List.find?_cons] at h
    by_cases hp : p.id = pid
    · simp [hp] at h
      subst h
      simp [updateFirst, hp, add_comm, add_assoc, add_left_comm]
    · simp [hp] at h
      have ihh := ih player h
      simp only [updateFirst, if_neg hp, List.map_cons, List.sum_cons, add_assoc]
      rw [ihh]

theorem findIdx?_of_mem {α : Type} (p : α → Bool) :
    ∀ (l : List α) (x : α), x ∈ l → p x = true → ∃ idx, l.findIdx? p = some idx := by
  intro l
  induction l with
  | nil => intro x hx; cases hx
  | cons y ys ih =>
    intro x hx hpx
    rw [List.findIdx?_cons]
    by_cases hy : p y
    · exact ⟨0, by simp [hy]⟩
    · cases hx with
      | head => exact absurd hpx hy
      | tail _ hx =>
        obtain ⟨idx, hidx⟩ := ih x hx hpx
        refine ⟨idx + 1, ?_⟩
        simp [hy, hidx]

theorem findIdx?_getD_sat {α : Type} (p : α → Bool) (d : α) :
    ∀ (l : List α) (idx : Nat), l.findIdx? p = some idx → p (l.getD idx d) = true := by
  intro l
  induction l with
  | nil => intro idx h; simp [List.findIdx?_nil] at h
  | cons y ys ih =>
    intro idx h
    rw [List.findIdx?_cons] at h
    by_cases hy : p y
    · simp [hy] at h
      subst h
      simpa using hy
    · simp [hy] at h
      obtain ⟨a, ha, rfl⟩ := h
      simpa [List.getD_cons_succ] using ih a ha

theorem findIdx?_some_lt {α : Type} (p : α → Bool) :
    ∀ (l : List α) (j : Nat), l.findIdx? p = some j → j < l.length := by
  intro l
  induction l with
  | nil => intro j h; simp [List.findIdx?_nil] at h
  | cons x xs ih =>
    intro j h
    rw [List.findIdx?_cons] at h
    by_cases hx : p x
    · simp [hx] at h
      simp only [List.length_cons]
      omega
    · simp [hx] at h
      obtain ⟨a, ha, rfl⟩ := h
      have := ih a ha
      simp only [List.length_cons]
      omega

/-- Every run of placePiece either rejects with the untouched state or
reports success. -/
theorem placePiece_cases (now : Int) (pid : String) (raw : Piece) (side : Side) (s : GameState) :
    placePiece now pid raw side s = (false, s) ∨ (placePiece now pid raw side s).1 = true := by
  simp only [placePiece]
  split
  · exact Or.inl rfl
  · split
    · exact Or.inl rfl
    · split
      · exact Or.inl rfl
      · split
        · split
          · exact Or.inl rfl
          · split
            · exact Or.inr rfl
            · exact Or.inr rfl
        · split
          · exact Or.inl rfl
          · split
            · exact Or.inr rfl
            · exact Or.inr rfl

/-! Sample match state used to instantiate theorems with hypotheses. -/

/-- Four seated players, seat 0 on turn, with small fixed hands. -/
def wsPlayers : List Player :=
  [{ id := "s0", name := "s0", hand := [(1, 3), (2, 2)], score := 0, team := Team.A, position := 0 },
   { id := "s1", name := "s1", hand := [(0, 0)], score := 0, team := Team.B, position := 1 },
   { id := "s2", name := "s2", hand := [(3, 3)], score := 0, team := Team.A, position := 2 },
   { id := "s3", name := "s3", hand := [(4, 4)], score := 0, team := Team.B, position := 3 }]

/-- A mid-hand state on the board [(1, 2)] with seat 0 on turn. -/
def wState : GameState :=
  { board := [(1, 2)], players := wsPlayers, currentTurnPlayerId := "s0",
    turnDeadline := 0, winnerTeam := none, consecutivePasses := 0, handNumber := 2,
    handWinnerId := none, winReason := none, handPoints := none,
    teamScores := { A := 0, B := 0 }, lastWinnerId := none }

/-- Claim C7: a rejected placePiece call (wrong turn, tile not held,
first-hand double six violation, or no end match) returns false and
leaves the entire match state unchanged, so board, hands, turn, pass
counter and scores are all as before the call. -/
theorem placePiece_rejection_no_mutation (now : Int) (pid : String) (raw : Piece)
    (side : Side) (s : GameState)
    (h : (placePiece now pid raw side s).1 = false) :
    (placePiece now pid raw side s).2 = s := by
  rcases placePiece_cases now pid raw side s with hc | hc
  · rw [hc]
  · rw [hc] at h
    simp at h

/-- Witness for claim C7 at a concrete rejected call: seat 1 moves out of
turn, the call reports false and the state is untouched. -/
theorem placePiece_rejection_no_mutation_witness :
    (placePiece 0 "s1" (0, 0) Side.head wState).1 = false ∧
    (placePiece 0 "s1" (0, 0) Side.head wState).2 = wState :=
  ⟨by decide, placePiece_rejection_no_mutation 0 "s1" (0, 0) Side.head wState (by decide)⟩

/-- handleWin never changes the board. -/
theorem handleWin_board (w : Player) (ty : WinType) (cap : Bool) (s : GameState) :
    (handleWin w ty cap s).board = s.board := by
  simp only [handleWin]
  repeat' split
  all_goals rfl

/-- nextTurn never changes the board. -/
theorem nextTurn_board (now : Int) (s : GameState) :
    (nextTurn now s).board = s.board := by
  simp only [nextTurn, startTurnTimer]
  repeat' split
  all_goals rfl

/-- The win reason recorded by a domino win is capicua exactly when the
capicua flag is set. -/
theorem handleWin_domino_winReason (w : Player) (cap : Bool) (s : GameState) :
    (handleWin w WinType.domino cap s).winReason =
      some (if cap then WinReason.capicua else WinReason.domino) := by
  simp only [handleWin]
  cases cap
  · repeat' split
    all_goals simp_all
  · repeat' split
    all_goals simp_all

/-- The hand points recorded by a domino win are the remaining pips over
all hands plus 30 for a capicua. -/
theorem handleWin_domino_handPoints (w : Player) (cap : Bool) (s : GameState) :
    (handleWin w WinType.domino cap s).handPoints =
      some (totalPips s.players + (if cap then 30 else 0)) := by
  simp only [handleWin, totalPips]
  cases cap
  · repeat' split
    all_goals simp_all
  · repeat' split
    all_goals simp_all

/-- A successful head attachment means the tile carries the head value. -/
theorem orientPlace_head_matches (piece : Piece) (h t : Int) (b : List Piece)
    (x : Piece × List Piece) :
    orientPlace Side.head piece h t b = some x → piece.1 = h ∨ piece.2 = h := by
  simp only [orientPlace]
  split_ifs with h1 h2
  · intro _; exact Or.inr h1
  · intro _; exact Or.inl h2
  · intro hx; cases hx

/-- A successful tail attachment means the tile carries the tail value. -/
theorem orientPlace_tail_matches (piece : Piece) (h t : Int) (b : List Piece)
    (x : Piece × List Piece) :
    orientPlace Side.tail piece h t b = some x → piece.1 = t ∨ piece.2 = t := by
  simp only [orientPlace]
  split_ifs with h1 h2
  · intro _; exact Or.inl h1
  · intro _; exact Or.inr h2
  · intro hx; cases hx

/-- Reduction of placePiece by the current seat on a non-empty board once
the acting player and the hand index of the submitted tile are fixed. -/
theorem placePiece_nonempty_eq (now : Int) (raw : Piece) (side : Side) (s : GameState)
    (player : Player) (idx : Nat)
    (hfind : s.players.find? (fun p => p.id = s.currentTurnPlayerId) = some player)
    (hidx : player.hand.findIdx? (sameTile raw) = some idx)
    (hboard : s.board.isEmpty = false) :
    placePiece now s.currentTurnPlayerId raw side s =
      (let piece := player.hand.getD idx (0, 0)
       let head := (getOpenEnds s.board).1
       let tail := (getOpenEnds s.board).2
       let side1 := if (piece.1 = head || piece.2 = head) && (piece.1 = tail || piece.2 = tail)
                    then Side.tail else side
       match orientPlace side1 piece head tail s.board with
       | none => (false, s)
       | some (_, board1) =>
         let s1 : GameState :=
           { s with board := board1,
                    players := updateFirst s.currentTurnPlayerId
                      (fun q => { q with hand := q.hand.eraseIdx idx }) s.players,
                    consecutivePasses := 0 }
         if (player.hand.eraseIdx idx).isEmpty then
           (true, handleWin player WinType.domino (capicuaCheck piece head tail) s1)
         else (true, nextTurn now s1)) := by
  simp only [placePiece, hfind, hidx, hboard]
  simp

/-- nextTurn never changes the players. -/
theorem nextTurn_players (now : Int) (s : GameState) :
    (nextTurn now s).players = s.players := by
  simp only [nextTurn, startTurnTimer]
  repeat' split
  all_goals rfl

/-- updateFirst preserves any pointwise measure the update function
respects. -/
theorem handTiles_updateFirst (pid : String) (f : Player → Player)
    (hf : ∀ p, (f p).hand.length = p.hand.length) :
    ∀ l : List Player, handTiles (updateFirst pid f l) = handTiles l := by
  intro l
  induction l with
  | nil => rfl
  | cons p ps ih =>
    simp only [updateFirst]
    split
    · simp [handTiles, hf]
    · simp only [handTiles, List.map_cons, List.sum_cons] at ih ⊢
      rw [ih]

/-- A map over the players preserves the tile count when the function
keeps each hand. -/
theorem handTiles_map (f : Player → Player)
    (hf : ∀ p, (f p).hand.length = p.hand.length) (l : List Player) :
    handTiles (l.map f) = handTiles l := by
  induction l with
  | nil => rfl
  | cons p ps ih =>
    simp only [handTiles, List.map_cons, List.sum_cons] at ih ⊢
    rw [hf, ih]

/-- handleWin keeps every hand (it only touches scores and bookkeeping). -/
theorem handleWin_handTiles (w : Player) (ty : WinType) (cap : Bool) (s : GameState) :
    handTiles (handleWin w ty cap s).players = handTiles s.players := by
  simp only [handleWin]
  repeat' split
  all_goals dsimp only
  all_goals
    apply handTiles_updateFirst
    intro p
    rfl

/-- handleTranque keeps every hand and the board. -/
theorem handleTranque_measure (s : GameState) :
    handTiles (handleTranque s).players = handTiles s.players ∧
    (handleTranque s).board = s.board := by
  simp only [handleTranque]
  repeat' split
  all_goals first
    | exact ⟨rfl, rfl⟩
    | exact ⟨handleWin_handTiles _ _ _ _, handleWin_board _ _ _ _⟩

/-- A successful attachment grows the board by exactly one tile. -/
theorem orientPlace_length (sd : Side) (piece : Piece) (h t : Int) (b : List Piece)
    (pp : Piece) (b1 : List Piece) :
    orientPlace sd piece h t b = some (pp, b1) → b1.length = b.length + 1 := by
  cases sd <;> simp only [orientPlace] <;> split_ifs <;> intro hx <;>
    (simp at hx; try (rw [← hx.2]; simp))

/-- A list of length four is literally four elements. -/
theorem list_length_four {α : Type} (l : List α) (h : l.length = 4) :
    ∃ a b c d, l = [a, b, c, d] := by
  rcases l with _ | ⟨a, l⟩
  · simp at h
  rcases l with _ | ⟨b, l⟩
  · simp at h
  rcases l with _ | ⟨c, l⟩
  · simp at h
  rcases l with _ | ⟨d, l⟩
  · simp at h
  rcases l with _ | ⟨e, l⟩
  · exact ⟨a, b, c, d, rfl⟩
  · simp at h

/-- Removing one tile from the acting hand while the board grows by one
preserves the total tile count. -/
theorem measure_after_place (pid : String) (idx : Nat) (player : Player)
    (s1b : List Piece) (s : GameState)
    (hfind : s.players.find? (fun p => p.id = pid) = some player)
    (hlt : idx < player.hand.length)
    (hlen : s1b.length = s.board.length + 1) :
    handTiles (updateFirst pid (fun q => { q with hand := q.hand.eraseIdx idx }) s.players)
      + s1b.length = handTiles s.players + s.board.length := by
  have hsum := updateFirst_map_sum (fun p => p.hand.length) pid
      (fun q => { q with hand := q.hand.eraseIdx idx }) s.players player hfind
  have herase : (player.hand.eraseIdx idx).length = player.hand.length - 1 := by
    rw [List.length_eraseIdx]
    simp [hlt]
  simp only [handTiles] at *
  omega

/-- startHand deals over the incoming players and clears the board. -/
theorem startHandWith_shape (deck : List Piece) (now : Int) (s : GameState) :
    (startHandWith deck now s).players = dealPlayers deck s.players ∧
    (startHandWith deck now s).board = [] := by
  simp only [startHandWith, startTurnTimer]
  repeat' split
  all_goals exact ⟨rfl, rfl⟩

/-- placePiece preserves the total count of tiles in hands and on the
board: a rejection changes nothing, an acceptance moves one tile. -/
theorem placePiece_measure (now : Int) (pid : String) (raw : Piece) (side : Side)
    (s : GameState) :
    handTiles (placePiece now pid raw side s).2.players +
      (placePiece now pid raw side s).2.board.length =
    handTiles s.players + s.board.length := by
  simp only [placePiece]
  split
  · rfl
  · split
    · rfl
    · split
      · rfl
      · rename_i player hfind idxo idx hidx
        have hlt := findIdx?_some_lt (sameTile raw) player.hand idx hidx
        split
        · split
          · rfl
          · split
            · rw [handleWin_handTiles, handleWin_board]
              dsimp only
              exact measure_after_place pid idx player _ s hfind hlt (by simp)
            · rw [nextTurn_players, nextTurn_board]
              dsimp only
              exact measure_after_place pid idx player _ s hfind hlt (by simp)
        · split
          · rfl
          · rename_i hboard pb pp board1 horient
            have hb1 := orientPlace_length _ _ _ _ _ _ _ horient
            split
            · rw [handleWin_handTiles, handleWin_board]
              dsimp only
              exact measure_after_place pid idx player _ s hfind hlt hb1
            · rw [nextTurn_players, nextTurn_board]
              dsimp only
              exact measure_after_place pid idx player _ s hfind hlt hb1

/-- The post pase redondo continuation preserves hands and board size. -/
theorem passContinue_measure (now : Int) (s1 : GameState) :
    handTiles (passContinue now s1).players + (passContinue now s1).board.length =
      handTiles s1.players + s1.board.length := by
  simp only [passContinue]
  split
  · obtain ⟨h1, h2⟩ := handleTranque_measure s1
    rw [h1, h2]
  · rw [nextTurn_players, nextTurn_board]

/-- passTurn preserves the total count of tiles in hands and on the
board. -/
theorem passTurn_measure (now : Int) (pid : String) (s : GameState) :
    handTiles (passTurn now pid s).players + (passTurn now pid s).board.length =
      handTiles s.players + s.board.length := by
  simp only [passTurn]
  split
  · rfl
  · split
    · rfl
    · split
      · split
        · split
          · split
            · simp only [startTurnTimer]
            · simp only [startTurnTimer]
              rw [handTiles_map]
              intro p
              split <;> rfl
          · exact passContinue_measure now _
        · exact passContinue_measure now _
      · exact passContinue_measure now _

/-- Claim C5: during a hand the tiles are conserved; dealing a permuted
28 tile deck to 4 seats puts the measure at exactly 28, and every
mutating engine operation (placePiece, passTurn, and the timeout
auto-play they implement) keeps the sum of all hand sizes plus the board
length unchanged. -/
theorem tile_conservation :
    (∀ (deck : List Piece) (now : Int) (s : GameState),
        deck.length = 28 → s.players.length = 4 →
        handTiles (startHandWith deck now s).players +
          (startHandWith deck now s).board.length = 28) ∧
    (∀ (now : Int) (pid : String) (raw : Piece) (side : Side) (s : GameState),
        handTiles (placePiece now pid raw side s).2.players +
          (placePiece now pid raw side s).2.board.length =
          handTiles s.players + s.board.length) ∧
    (∀ (now : Int) (pid : String) (s : GameState),
        handTiles (passTurn now pid s).players +
          (passTurn now pid s).board.length =
          handTiles s.players + s.board.length) ∧
    (∀ (now : Int) (choice : Option (Piece × Side)) (s : GameState),
        handTiles (handleTimeoutWith now choice s).players +
          (handleTimeoutWith now choice s).board.length =
          handTiles s.players + s.board.length) := by
  refine ⟨?_, placePiece_measure, passTurn_measure, ?_⟩
  · intro deck now s hdeck hp
    obtain ⟨hpl, hbd⟩ := startHandWith_shape deck now s
    rw [hpl, hbd]
    obtain ⟨a, b, c, d, hsp⟩ := list_length_four s.players hp
    rw [hsp]
    simp [dealPlayers, handTiles, List.length_take, List.length_drop, hdeck]
  · intro now choice s
    simp only [handleTimeoutWith]
    split
    · rfl
    · split
      · rfl
      · split
        · exact placePiece_measure now _ _ _ s
        · exact passTurn_measure now _ s

/-- Witness for claim C5: dealing the generated deck to the four sample
seats leaves 28 tiles in hands plus board. -/
theorem tile_conservation_witness :
    handTiles (startHandWith generateDeck 0 wState).players +
      (startHandWith generateDeck 0 wState).board.length = 28 :=
  tile_conservation.1 generateDeck 0 wState (by decide) (by decide)

/-- Claim C6: when the submitted tile matches both the head and the tail
value of a non-empty board, placePiece accepts and appends the tile at
the tail end regardless of the requested side, oriented with the
matching face touching the existing tail. -/
theorem placePiece_double_match_forces_tail (now : Int) (raw : Piece) (side : Side)
    (s : GameState) (player : Player) (idx : Nat) (piece : Piece) (head tail : Int)
    (hfind : s.players.find? (fun p => p.id = s.currentTurnPlayerId) = some player)
    (hidx : player.hand.findIdx? (sameTile raw) = some idx)
    (hboard : s.board.isEmpty = false)
    (hpiece : player.hand.getD idx (0, 0) = piece)
    (hends : getOpenEnds s.board = (head, tail))
    (hmh : piece.1 = head ∨ piece.2 = head)
    (hmt : piece.1 = tail ∨ piece.2 = tail) :
    (placePiece now s.currentTurnPlayerId raw side s).1 = true ∧
    (placePiece now s.currentTurnPlayerId raw side s).2.board =
      s.board ++ [if piece.1 = tail then piece else swapP piece] ∧
    (if piece.1 = tail then piece else swapP piece).1 = tail := by
  have hmhb : (piece.1 = head || piece.2 = head) = true := by
    rcases hmh with h | h <;> simp [h]
  have hmtb : (piece.1 = tail || piece.2 = tail) = true := by
    rcases hmt with h | h <;> simp [h]
  rw [placePiece_nonempty_eq now raw side s player idx hfind hidx hboard]
  simp only [hpiece, hends, hmhb, hmtb, Bool.and_self, if_true]
  by_cases h1 : piece.1 = tail
  · simp only [orientPlace, h1, if_true]
    split
    · exact ⟨rfl, by rw [handleWin_board], by simp [h1]⟩
    · exact ⟨rfl, by rw [nextTurn_board], by simp [h1]⟩
  · have h2 : piece.2 = tail := hmt.resolve_left h1
    simp only [orientPlace, h2, if_true, if_neg h1]
    split
    · exact ⟨rfl, by rw [handleWin_board], by simp [h1, swapP, h2]⟩
    · exact ⟨rfl, by rw [nextTurn_board], by simp [h1, swapP, h2]⟩

/-- Scenario C state: both open ends are 5 and seat 0 on turn holds the
tile (5, 2) plus one more tile. -/
def cState : GameState :=
  { board := [(5, 5)],
    players :=
      [{ id := "s0", name := "s0", hand := [(5, 2), (0, 1)], score := 0, team := Team.A, position := 0 },
       { id := "s1", name := "s1", hand := [(0, 0)], score := 0, team := Team.B, position := 1 },
       { id := "s2", name := "s2", hand := [(3, 3)], score := 0, team := Team.A, position := 2 },
       { id := "s3", name := "s3", hand := [(4, 4)], score := 0, team := Team.B, position := 3 }],
    currentTurnPlayerId := "s0", turnDeadline := 0, winnerTeam := none,
    consecutivePasses := 0, handNumber := 2, handWinnerId := none, winReason := none,
    handPoints := none, teamScores := { A := 0, B := 0 }, lastWinnerId := none }

/-- Witness for claim C6: with head and tail both 5, seat 0 submits
(2, 5) asking for the head; the tile is appended at the tail as (5, 2). -/
theorem placePiece_double_match_forces_tail_witness :
    (placePiece 0 "s0" (2, 5) Side.head cState).1 = true ∧
    (placePiece 0 "s0" (2, 5) Side.head cState).2.board =
      [((5 : Int), (5 : Int))] ++ [if ((5 : Int), (2 : Int)).1 = 5 then ((5 : Int), (2 : Int))
                                   else swapP ((5 : Int), (2 : Int))] ∧
    (if ((5 : Int), (2 : Int)).1 = 5 then ((5 : Int), (2 : Int))
     else swapP ((5 : Int), (2 : Int))).1 = 5 :=
  placePiece_double_match_forces_tail 0 (2, 5) Side.head cState
    { id := "s0", name := "s0", hand := [(5, 2), (0, 1)], score := 0, team := Team.A, position := 0 }
    0 (5, 2) 5 5 (by decide) (by decide) (by decide) (by decide) (by decide)
    (by decide) (by decide)

/-- Claim C3: an accepted placePiece on a non-empty board that empties
the acting hand resolves with the capicua bonus of 30 exactly when the
winning tile is not a double and matches both open board values,
including the degenerate equal-ends case; a double never earns it. -/
theorem placePiece_capicua_iff (now : Int) (raw : Piece) (side : Side) (s : GameState)
    (player : Player) (idx : Nat) (piece : Piece) (head tail : Int)
    (hfind : s.players.find? (fun p => p.id = s.currentTurnPlayerId) = some player)
    (hidx : player.hand.findIdx? (sameTile raw) = some idx)
    (hboard : s.board.isEmpty = false)
    (hpiece : player.hand.getD idx (0, 0) = piece)
    (hends : getOpenEnds s.board = (head, tail))
    (hhead : 0 ≤ head)
    (hlast : player.hand.length = 1)
    (hacc : (placePiece now s.currentTurnPlayerId raw side s).1 = true) :
    (((placePiece now s.currentTurnPlayerId raw side s).2.winReason = some WinReason.capicua ∧
      (placePiece now s.currentTurnPlayerId raw side s).2.handPoints =
        some (totalPips (updateFirst s.currentTurnPlayerId
          (fun q => { q with hand := q.hand.eraseIdx idx }) s.players) + 30))
      ↔ (piece.1 ≠ piece.2 ∧ (piece.1 = head ∨ piece.2 = head) ∧
         (piece.1 = tail ∨ piece.2 = tail))) ∧
    (piece.1 = piece.2 →
      (placePiece now s.currentTurnPlayerId raw side s).2.winReason = some WinReason.domino) := by
  have herase : (player.hand.eraseIdx idx).isEmpty = true := by
    have hlt := findIdx?_some_lt (sameTile raw) player.hand idx hidx
    rw [hlast] at hlt
    interval_cases idx
    rcases List.length_eq_one.mp hlast with ⟨a, ha⟩
    simp [ha]
  rw [placePiece_nonempty_eq now raw side s player idx hfind hidx hboard] at hacc ⊢
  simp only [hpiece, hends] at hacc ⊢
  rcases horient : orientPlace
      (if (piece.1 = head || piece.2 = head) && (piece.1 = tail || piece.2 = tail)
       then Side.tail else side) piece head tail s.board with _ | ⟨pp, board1⟩
  · rw [horient] at hacc
    simp at hacc
  · rw [horient] at hacc
    simp only [herase, if_true] at hacc ⊢
    rw [handleWin_domino_winReason, handleWin_domino_handPoints]
    have hmatch : (piece.1 = head ∨ piece.2 = head) ∨ (piece.1 = tail ∨ piece.2 = tail) := by
      rcases hs1 : (if (piece.1 = head || piece.2 = head) && (piece.1 = tail || piece.2 = tail)
                    then Side.tail else side) with _ | _
      · rw [hs1] at horient
        exact Or.inl (orientPlace_head_matches piece head tail s.board _ horient)
      · rw [hs1] at horient
        exact Or.inr (orientPlace_tail_matches piece head tail s.board _ horient)
    have hne : ¬(head = -1) := by omega
    constructor
    · constructor
      · rintro ⟨hwr, hhp⟩
        by_cases hcap : capicuaCheck piece head tail = true
        · simp only [capicuaCheck, Bool.and_eq_true, Bool.not_eq_true', Bool.or_eq_true,
            decide_eq_true_eq, decide_eq_false_iff_not] at hcap
          obtain ⟨hnd, _, hD⟩ := hcap
          refine ⟨hnd, ?_⟩
          rcases hD with (⟨a, b⟩ | ⟨a, b⟩) | hht
          · exact ⟨Or.inl a, Or.inr b⟩
          · exact ⟨Or.inr a, Or.inl b⟩
          · subst hht
            rcases hmatch with m | m
            · exact ⟨m, m⟩
            · exact ⟨m, m⟩
        · rw [Bool.not_eq_true] at hcap
          rw [hcap] at hwr
          simp at hwr
      · rintro ⟨hnd, hmh, hmt⟩
        have hcap : capicuaCheck piece head tail = true := by
          simp only [capicuaCheck, Bool.and_eq_true, Bool.not_eq_true', Bool.or_eq_true,
            decide_eq_true_eq, decide_eq_false_iff_not]
          refine ⟨hnd, hne, ?_⟩
          rcases hmh with a | a <;> rcases hmt with b | b
          · exact Or.inr (a.symm.trans b)
          · exact Or.inl (Or.inl ⟨a, b⟩)
          · exact Or.inl (Or.inr ⟨a, b⟩)
          · exact Or.inr (a.symm.trans b)
        rw [hcap]
        simp
    · intro hdouble
      have hcap : capicuaCheck piece head tail = false := by
        simp [capicuaCheck, hdouble]
      rw [hcap]
      simp

/-- Scenario E state: the board reads (2, 1), (1, 5) so the open ends
are 2 and 5, and seat 0 holds only the tile (5, 2). -/
def eState : GameState :=
  { board := [(2, 1), (1, 5)],
    players :=
      [{ id := "s0", name := "s0", hand := [(5, 2)], score := 0, team := Team.A, position := 0 },
       { id := "s1", name := "s1", hand := [(0, 0)], score := 0, team := Team.B, position := 1 },
       { id := "s2", name := "s2", hand := [(3, 3)], score := 0, team := Team.A, position := 2 },
       { id := "s3", name := "s3", hand := [(4, 4)], score := 0, team := Team.B, position := 3 }],
    currentTurnPlayerId := "s0", turnDeadline := 0, winnerTeam := none,
    consecutivePasses := 0, handNumber := 2, handWinnerId := none, winReason := none,
    handPoints := none, teamScores := { A := 0, B := 0 }, lastWinnerId := none }

/-- Witness for claim C3: seat 0 wins by playing its last tile (5, 2) on
open ends 2 and 5; the capicua equivalence holds at this input. -/
theorem placePiece_capicua_iff_witness :
    ((((placePiece 0 "s0" (2, 5) Side.head eState).2.winReason = some WinReason.capicua ∧
       (placePiece 0 "s0" (2, 5) Side.head eState).2.handPoints =
         some (totalPips (updateFirst "s0"
           (fun q => { q with hand := q.hand.eraseIdx 0 }) eState.players) + 30))
       ↔ (((5 : Int), (2 : Int)).1 ≠ ((5 : Int), (2 : Int)).2 ∧
          (((5 : Int), (2 : Int)).1 = 2 ∨ ((5 : Int), (2 : Int)).2 = 2) ∧
          (((5 : Int), (2 : Int)).1 = 5 ∨ ((5 : Int), (2 : Int)).2 = 5))) ∧
     (((5 : Int), (2 : Int)).1 = ((5 : Int), (2 : Int)).2 →
       (placePiece 0 "s0" (2, 5) Side.head eState).2.winReason = some WinReason.domino)) :=
  placePiece_capicua_iff 0 (2, 5) Side.head eState
    { id := "s0", name := "s0", hand := [(5, 2)], score := 0, team := Team.A, position := 0 }
    0 (5, 2) 2 5 (by decide) (by decide) (by decide) (by decide) (by decide)
    (by decide) (by decide) (by decide)

/-- nextTurn never changes the team scores. -/
theorem nextTurn_teamScores (now : Int) (s : GameState) :
    (nextTurn now s).teamScores = s.teamScores := by
  simp only [nextTurn, startTurnTimer]
  repeat' split
  all_goals rfl

/-- Claim C1 (the code defect it exposes): when a pass brings the
counter to exactly 3, the pase redondo check inspects the seat that just
passed (the turn has not advanced yet), and the pass guard already
established that this seat has no legal move, so the bonus branch can
never run: an accepted third pass always just advances the turn with the
counter left at 3, every individual score untouched and the team scores
untouched, even when the seat the turn returns to has a legal move and
its team is below 170 points. -/
theorem third_pass_never_awards_pase_redondo (now : Int) (pid : String) (s : GameState)
    (h2 : s.consecutivePasses = 2) :
    (passTurn now pid s = s ∨
     passTurn now pid s = nextTurn now { s with consecutivePasses := 3 }) ∧
    (passTurn now pid s).players.map Player.score = s.players.map Player.score ∧
    (passTurn now pid s).teamScores = s.teamScores := by
  have hmain : passTurn now pid s = s ∨
      passTurn now pid s = nextTurn now { s with consecutivePasses := 3 } := by
    simp only [passTurn]
    split
    · exact Or.inl rfl
    · split
      · exact Or.inl rfl
      · right
        rename_i hnid hguard
        rw [h2]
        have hcur : getCurrentPlayer { s with consecutivePasses := 2 + 1 } =
            getCurrentPlayer s := rfl
        simp only [hcur]
        cases hcp : getCurrentPlayer s with
        | none =>
          simp only [passContinue]
          norm_num
        | some cp =>
          have hval : hasValidMove s.board s.handNumber cp.hand = false := by
            rw [hcp] at hguard
            simpa using hguard
          simp only [hval]
          simp only [passContinue]
          norm_num
  refine ⟨hmain, ?_, ?_⟩
  · rcases hmain with h | h
    · rw [h]
    · rw [h, nextTurn_players]
  · rcases hmain with h | h
    · rw [h]
    · rw [h, nextTurn_teamScores]

/-- The concrete failing input for claim C1: seats p1, p2 and p3 have
passed twice already with p3 on turn for the third pass; the returning
seat p0 holds (1, 3), a legal move on the board [(1, 2)], and team A has
0 points, well below 170. -/
def fState : GameState :=
  { board := [(1, 2)],
    players :=
      [{ id := "p0", name := "p0", hand := [(1, 3)], score := 0, team := Team.A, position := 0 },
       { id := "p1", name := "p1", hand := [(0, 0)], score := 0, team := Team.B, position := 1 },
       { id := "p2", name := "p2", hand := [(3, 3)], score := 0, team := Team.A, position := 2 },
       { id := "p3", name := "p3", hand := [(4, 4)], score := 0, team := Team.B, position := 3 }],
    currentTurnPlayerId := "p3", turnDeadline := 0, winnerTeam := none,
    consecutivePasses := 2, handNumber := 2, handWinnerId := none, winReason := none,
    handPoints := none, teamScores := { A := 0, B := 0 }, lastWinnerId := none }

/-- Witness for claim C1 at the failing input: the returning seat p0 has
a legal move and its team is below 170, yet the third pass by p3 awards
nothing, leaves the counter at 3 and moves the turn to p0. -/
theorem third_pass_never_awards_pase_redondo_witness :
    hasValidMove fState.board fState.handNumber [((1 : Int), (3 : Int))] = true ∧
    ((passTurn 0 "p3" fState = fState ∨
      passTurn 0 "p3" fState = nextTurn 0 { fState with consecutivePasses := 3 }) ∧
     (passTurn 0 "p3" fState).players.map Player.score = fState.players.map Player.score ∧
     (passTurn 0 "p3" fState).teamScores = fState.teamScores) ∧
    (passTurn 0 "p3" fState).consecutivePasses = 3 ∧
    (passTurn 0 "p3" fState).currentTurnPlayerId = "p0" :=
  ⟨by decide, third_pass_never_awards_pase_redondo 0 "p3" fState (by decide),
   by decide, by decide⟩

/-- The pip sum of a hand as a mapped list sum. -/
theorem sumHand_eq_sum (hand : List Piece) :
    sumHand hand = (hand.map (fun t => t.1 + t.2)).sum := by
  have key : ∀ (l : List Piece) (c : Int),
      l.foldl (fun a p => a + p.1 + p.2) c = c + (l.map (fun t => t.1 + t.2)).sum := by
    intro l
    induction l with
    | nil => intro c; simp
    | cons p ps ih =>
      intro c
      simp only [List.foldl_cons, List.map_cons, List.sum_cons, ih]
      ring
  simpa using key hand 0

/-- A hand of nonnegative pip values has a nonnegative sum. -/
theorem sumHand_nonneg (hand : List Piece)
    (h : ∀ t ∈ hand, 0 ≤ t.1 ∧ 0 ≤ t.2) : 0 ≤ sumHand hand := by
  rw [sumHand_eq_sum]
  apply List.sum_nonneg
  intro x hx
  rw [List.mem_map] at hx
  obtain ⟨t, ht, rfl⟩ := hx
  have := h t ht
  omega

/-- Nonnegative hands give a nonnegative total pip count. -/
theorem totalPips_nonneg (players : List Player)
    (h : ∀ p ∈ players, ∀ t ∈ p.hand, 0 ≤ t.1 ∧ 0 ≤ t.2) : 0 ≤ totalPips players := by
  rw [totalPips_eq_sum]
  apply List.sum_nonneg
  intro x hx
  rw [List.mem_map] at hx
  obtain ⟨p, hp, rfl⟩ := hx
  exact sumHand_nonneg p.hand (h p hp)

/-- Every member of updateFirst is an original member or the image of
one. -/
theorem updateFirst_mem (pid : String) (f : Player → Player) :
    ∀ (l : List Player) (q : Player), q ∈ updateFirst pid f l →
      q ∈ l ∨ ∃ p, p ∈ l ∧ q = f p := by
  intro l
  induction l with
  | nil => intro q hq; cases hq
  | cons p ps ih =>
    intro q hq
    simp only [updateFirst] at hq
    split at hq
    · cases hq with
      | head => exact Or.inr ⟨p, List.mem_cons_self p ps, rfl⟩
      | tail _ hq => exact Or.inl (List.mem_cons_of_mem p hq)
    · cases hq with
      | head => exact Or.inl (List.mem_cons_self p ps)
      | tail _ hq =>
        rcases ih q hq with h | ⟨r, hr, rfl⟩
        · exact Or.inl (List.mem_cons_of_mem p h)
        · exact Or.inr ⟨r, List.mem_cons_of_mem p hr, rfl⟩

/-- Crediting one team never lowers either team score. -/
theorem teamScores_add_get_ge (ts : TeamScores) (tm : Team) (n : Int) (t : Team)
    (hn : 0 ≤ n) : ts.get t ≤ (ts.add tm n).get t := by
  cases tm <;> cases t <;> simp [TeamScores.add, TeamScores.get] <;> omega

/-- handleWin only adds a nonnegative amount to the team scores. -/
theorem handleWin_teamScores_mono (w : Player) (ty : WinType) (cap : Bool) (s : GameState)
    (t : Team) (hp : 0 ≤ totalPips s.players) :
    s.teamScores.get t ≤ (handleWin w ty cap s).teamScores.get t := by
  simp only [totalPips] at hp
  simp only [handleWin]
  repeat' split
  all_goals dsimp only
  all_goals apply teamScores_add_get_ge
  all_goals omega

/-- A hand resolution that carries the winning team to 200 or more marks
that team as match winner. -/
theorem handleWin_resolves_at_200 (w : Player) (ty : WinType) (cap : Bool) (s : GameState) :
    200 ≤ (handleWin w ty cap s).teamScores.get w.team →
    (handleWin w ty cap s).winnerTeam = some w.team := by
  simp only [handleWin]
  repeat' split
  all_goals dsimp only
  all_goals intro h200
  all_goals first
    | rfl
    | exact absurd h200 (by assumption)

/-- Below 200 the match winner field is untouched by a hand
resolution. -/
theorem handleWin_below_200_keeps_winner (w : Player) (ty : WinType) (cap : Bool)
    (s : GameState) :
    (handleWin w ty cap s).teamScores.get w.team < 200 →
    (handleWin w ty cap s).winnerTeam = s.winnerTeam := by
  simp only [handleWin]
  repeat' split
  all_goals dsimp only
  all_goals intro h200
  all_goals first
    | rfl
    | omega

/-- Erasing a tile from the acting hand keeps every held value
nonnegative. -/
theorem handsNonneg_update_erase (pid : String) (idx : Nat) (players : List Player)
    (hn : ∀ p ∈ players, ∀ t ∈ p.hand, 0 ≤ t.1 ∧ 0 ≤ t.2) :
    ∀ p ∈ updateFirst pid (fun q => { q with hand := q.hand.eraseIdx idx }) players,
      ∀ t ∈ p.hand, 0 ≤ t.1 ∧ 0 ≤ t.2 := by
  intro p hp t ht
  rcases updateFirst_mem pid _ players p hp with h | ⟨r, hr, rfl⟩
  · exact hn p h t ht
  · exact hn r hr t (List.eraseIdx_subset r.hand idx ht)

/-- placePiece never lowers a team score when every held pip value is
nonnegative. -/
theorem placePiece_teamScores_mono (now : Int) (pid : String) (raw : Piece) (side : Side)
    (s : GameState) (t : Team)
    (hn : ∀ p ∈ s.players, ∀ x ∈ p.hand, 0 ≤ x.1 ∧ 0 ≤ x.2) :
    s.teamScores.get t ≤ (placePiece now pid raw side s).2.teamScores.get t := by
  simp only [placePiece]
  split
  · exact le_refl _
  · split
    · exact le_refl _
    · split
      · exact le_refl _
      · rename_i player hfind idxo idx hidx
        have hnn : 0 ≤ totalPips (updateFirst pid
            (fun q => { q with hand := q.hand.eraseIdx idx }) s.players) :=
          totalPips_nonneg _ (handsNonneg_update_erase pid idx s.players hn)
        split
        · split
          · exact le_refl _
          · split
            · exact handleWin_teamScores_mono player WinType.domino false _ t hnn
            · rw [nextTurn_teamScores]
        · split
          · exact le_refl _
          · split
            · exact handleWin_teamScores_mono player WinType.domino _ _ t hnn
            · rw [nextTurn_teamScores]

/-- The continuation after the pase redondo block never lowers a team
score. -/
theorem passContinue_teamScores_mono (now : Int) (s1 : GameState) (t : Team)
    (hp : 0 ≤ totalPips s1.players) :
    s1.teamScores.get t ≤ (passContinue now s1).teamScores.get t := by
  simp only [passContinue, handleTranque]
  repeat' split
  all_goals first
    | exact le_refl _
    | exact handleWin_teamScores_mono _ WinType.tranque false s1 t hp
    | rw [nextTurn_teamScores]

/-- passTurn never lowers a team score when every held pip value is
nonnegative. -/
theorem passTurn_teamScores_mono (now : Int) (pid : String) (s : GameState) (t : Team)
    (hn : ∀ p ∈ s.players, ∀ x ∈ p.hand, 0 ≤ x.1 ∧ 0 ≤ x.2) :
    s.teamScores.get t ≤ (passTurn now pid s).teamScores.get t := by
  have hp : 0 ≤ totalPips s.players := totalPips_nonneg _ hn
  simp only [passTurn]
  split
  · exact le_refl _
  · split
    · exact le_refl _
    · split
      · split
        · split
          · split
            · simp only [startTurnTimer]
              exact le_refl _
            · simp only [startTurnTimer]
              exact le_refl _
          · exact passContinue_teamScores_mono now _ t hp
        · exact passContinue_teamScores_mono now _ t hp
      · exact passContinue_teamScores_mono now _ t hp

/-- startHand never touches the team scores. -/
theorem startHandWith_teamScores (deck : List Piece) (now : Int) (s : GameState) :
    (startHandWith deck now s).teamScores = s.teamScores := by
  simp only [startHandWith, startTurnTimer]
  repeat' split
  all_goals rfl

/-- startHand never touches the match winner field. -/
theorem startHandWith_winnerTeam (deck : List Piece) (now : Int) (s : GameState) :
    (startHandWith deck now s).winnerTeam = s.winnerTeam := by
  simp only [startHandWith, startTurnTimer]
  repeat' split
  all_goals rfl

/-- Counterexample for claim C4: on a match state already resolved for
team A, a further startHand call is not rejected; it clears the board,
deals 7 fresh tiles to every seat and re-arms the clock, so a subsequent
startHand does start a new hand. -/
theorem startHand_after_resolution_counterexample :
    rState.winnerTeam = some Team.A ∧
    (startHandWith generateDeck 0 rState).board = [] ∧
    (startHandWith generateDeck 0 rState).players.map (fun p => p.hand.length) =
      [7, 7, 7, 7] ∧
    (startHandWith generateDeck 0 rState).turnDeadline = 0 + 5000 := by
  decide

/-- Claim C4 as amended: team scores never decrease under placePiece,
passTurn, startHand or the timeout handler (for states whose held pip
values are nonnegative, as dealt hands are); a hand resolution carrying
the winning team to 200 or more marks the match resolved with that team
as champion, and below 200 leaves the winner field alone; but startHand
itself is not guarded by the winner field: it preserves winnerTeam and
still deals a fresh hand, the gating being left to the client layer. -/
theorem team_score_monotone_and_resolution :
    (∀ (now : Int) (pid : String) (raw : Piece) (side : Side) (s : GameState) (t : Team),
       (∀ p ∈ s.players, ∀ x ∈ p.hand, 0 ≤ x.1 ∧ 0 ≤ x.2) →
       s.teamScores.get t ≤ (placePiece now pid raw side s).2.teamScores.get t) ∧
    (∀ (now : Int) (pid : String) (s : GameState) (t : Team),
       (∀ p ∈ s.players, ∀ x ∈ p.hand, 0 ≤ x.1 ∧ 0 ≤ x.2) →
       s.teamScores.get t ≤ (passTurn now pid s).teamScores.get t) ∧
    (∀ (deck : List Piece) (now : Int) (s : GameState),
       (startHandWith deck now s).teamScores = s.teamScores) ∧
    (∀ (now : Int) (choice : Option (Piece × Side)) (s : GameState) (t : Team),
       (∀ p ∈ s.players, ∀ x ∈ p.hand, 0 ≤ x.1 ∧ 0 ≤ x.2) →
       s.teamScores.get t ≤ (handleTimeoutWith now choice s).teamScores.get t) ∧
    (∀ (w : Player) (ty : WinType) (cap : Bool) (s : GameState),
       200 ≤ (handleWin w ty cap s).teamScores.get w.team →
       (handleWin w ty cap s).winnerTeam = some w.team) ∧
    (∀ (w : Player) (ty : WinType) (cap : Bool) (s : GameState),
       (handleWin w ty cap s).teamScores.get w.team < 200 →
       (handleWin w ty cap s).winnerTeam = s.winnerTeam) ∧
    (∀ (deck : List Piece) (now : Int) (s : GameState),
       (startHandWith deck now s).winnerTeam = s.winnerTeam ∧
       (startHandWith deck now s).players = dealPlayers deck s.players) := by
  refine ⟨placePiece_teamScores_mono, passTurn_teamScores_mono, startHandWith_teamScores,
    ?_, handleWin_resolves_at_200, handleWin_below_200_keeps_winner, ?_⟩
  · intro now choice s t hn
    simp only [handleTimeoutWith]
    split
    · exact le_refl _
    · split
      · exact le_refl _
      · split
        · exact placePiece_teamScores_mono now _ _ _ s t hn
        · exact passTurn_teamScores_mono now _ s t hn
  · intro deck now s
    exact ⟨startHandWith_winnerTeam deck now s, (startHandWith_shape deck now s).1⟩

/-- Witness for claim C4: concrete monotonicity at the sample state, a
hand resolution crossing 200 crowning team A, and one staying below 200
leaving the winner unset. -/
theorem team_score_monotone_and_resolution_witness :
    (wState.teamScores.get Team.A ≤
      (placePiece 0 "s0" (1, 3) Side.head wState).2.teamScores.get Team.A) ∧
    (wState.teamScores.get Team.B ≤ (passTurn 0 "s1" wState).teamScores.get Team.B) ∧
    (200 ≤ (handleWin { id := "s0", name := "s0", hand := [], score := 0,
                        team := Team.A, position := 0 } WinType.domino false
              { wState with teamScores := { A := 195, B := 0 } }).teamScores.get Team.A ∧
     (handleWin { id := "s0", name := "s0", hand := [], score := 0,
                  team := Team.A, position := 0 } WinType.domino false
        { wState with teamScores := { A := 195, B := 0 } }).winnerTeam = some Team.A) ∧
    ((handleWin { id := "s0", name := "s0", hand := [], score := 0,
                  team := Team.A, position := 0 } WinType.domino false
        wState).teamScores.get Team.A < 200 ∧
     (handleWin { id := "s0", name := "s0", hand := [], score := 0,
                  team := Team.A, position := 0 } WinType.domino false
        wState).winnerTeam = wState.winnerTeam) :=
  ⟨team_score_monotone_and_resolution.1 0 "s0" (1, 3) Side.head wState Team.A (by decide),
   (team_score_monotone_and_resolution.2.1) 0 "s1" wState Team.B (by decide),
   ⟨by decide, (team_score_monotone_and_resolution.2.2.2.2.1) _ WinType.domino false
      { wState with teamScores := { A := 195, B := 0 } } (by decide)⟩,
   ⟨by decide, (team_score_monotone_and_resolution.2.2.2.2.2.1) _ WinType.domino false
      wState (by decide)⟩⟩

/-- Counterexample for claim C8: with the default room configuration
(turn duration 15 seconds, so 15000 ms by the constructor rule) the
armed deadline is 5000 ms after the arming time, not the configured
length: startTurnTimer hard codes a 5 second testing duration. -/
theorem turn_clock_ignores_config_counterexample :
    (startTurnTimer 0 wState).turnDeadline = 5000 ∧
    turnDurationMs { maxPlayers := 4, isPrivate := false, targetScore := 200,
                     turnDuration := 15 } = 15000 ∧
    (startTurnTimer 0 wState).turnDeadline ≠
      0 + turnDurationMs { maxPlayers := 4, isPrivate := false, targetScore := 200,
                           turnDuration := 15 } := by
  decide

/-- Claim C8 as amended: every arming of the turn clock (directly, by
startHand, or by turn advancement) sets the deadline to the arming time
plus a fixed 5000 ms, regardless of the configured turnDuration; the
turn advancement either arms the clock or, once the match is resolved or
with no seats, leaves the state alone. -/
theorem turn_clock_deadline_fixed_5000 (now : Int) (s : GameState) (deck : List Piece) :
    (startTurnTimer now s).turnDeadline = now + 5000 ∧
    (startHandWith deck now s).turnDeadline = now + 5000 ∧
    (s.winnerTeam = none →
      (nextTurn now s).turnDeadline = now + 5000 ∨ nextTurn now s = s) := by
  refine ⟨rfl, ?_, ?_⟩
  · simp only [startHandWith, startTurnTimer]
    repeat' split
    all_goals rfl
  · intro hw
    simp only [nextTurn, startTurnTimer, hw]
    split
    · right; rfl
    · split
      · right; rfl
      · left
        split <;> rfl

/-- Witness for claim C8 at a concrete arming time and state. -/
theorem turn_clock_deadline_fixed_5000_witness :
    wState.winnerTeam = none ∧
    (startTurnTimer 7 wState).turnDeadline = 7 + 5000 ∧
    (startHandWith generateDeck 7 wState).turnDeadline = 7 + 5000 ∧
    ((nextTurn 7 wState).turnDeadline = 7 + 5000 ∨ nextTurn 7 wState = wState) :=
  ⟨by decide, (turn_clock_deadline_fixed_5000 7 wState generateDeck).1,
   (turn_clock_deadline_fixed_5000 7 wState generateDeck).2.1,
   (turn_clock_deadline_fixed_5000 7 wState generateDeck).2.2 (by decide)⟩

/-- Claim C10: the hand search of placePiece is orientation insensitive;
submitting a tile in either face order yields the identical call result,
and when the acting seat holds the tile the search locates a held tile
equal to the submitted one up to orientation. -/
theorem placePiece_orientation_insensitive (now : Int) (pid : String) (a b : Int)
    (side : Side) (s : GameState) (player : Player)
    (hfind : s.players.find? (fun p => p.id = pid) = some player)
    (hmem : ((a, b) : Piece) ∈ player.hand) :
    placePiece now pid (a, b) side s = placePiece now pid (b, a) side s ∧
    ∃ idx, player.hand.findIdx? (sameTile (a, b)) = some idx ∧
      (player.hand.getD idx (0, 0) = (a, b) ∨ player.hand.getD idx (0, 0) = (b, a)) := by
  constructor
  · have hst : sameTile (a, b) = sameTile (b, a) := by
      funext p
      simp only [sameTile]
      exact Bool.or_comm _ _
    unfold placePiece
    rw [hst]
  · have hsat : sameTile (a, b) (a, b) = true := by simp [sameTile]
    obtain ⟨idx, hidx⟩ := findIdx?_of_mem _ player.hand (a, b) hmem hsat
    refine ⟨idx, hidx, ?_⟩
    have hp := findIdx?_getD_sat (sameTile (a, b)) (0, 0) player.hand idx hidx
    simp only [sameTile, Bool.or_eq_true, Bool.and_eq_true, decide_eq_true_eq] at hp
    rcases hp with ⟨h1, h2⟩ | ⟨h1, h2⟩
    · exact Or.inl (Prod.ext h1 h2)
    · exact Or.inr (Prod.ext h1 h2)

/-- Witness for claim C10: seat 0 holds (1, 3); submitting (1, 3) and
(3, 1) give the same call result and the search finds the held tile. -/
theorem placePiece_orientation_insensitive_witness :
    placePiece 0 "s0" (1, 3) Side.head wState = placePiece 0 "s0" (3, 1) Side.head wState ∧
    ∃ idx, ([(1, 3), (2, 2)] : List Piece).findIdx? (sameTile (1, 3)) = some idx ∧
      (([(1, 3), (2, 2)] : List Piece).getD idx (0, 0) = (1, 3) ∨
       ([(1, 3), (2, 2)] : List Piece).getD idx (0, 0) = (3, 1)) :=
  placePiece_orientation_insensitive 0 "s0" 1 3 Side.head wState
    { id := "s0", name := "s0", hand := [(1, 3), (2, 2)], score := 0,
      team := Team.A, position := 0 }
    (by decide) (by decide)

end Domino

namespace Domino
def seat4 (q0 q1 q2 q3 : Player) : Fin 4 → Player
  | 0 => q0
  | 1 => q1
  | 2 => q2
  | 3 => q3

theorem getCurrentPlayer_four (s : GameState) (q0 q1 q2 q3 : Player) (j : Fin 4)
    (hps : s.players = [q0, q1, q2, q3])
    (hd01 : q0.id ≠ q1.id) (hd02 : q0.id ≠ q2.id) (hd03 : q0.id ≠ q3.id)
    (hd12 : q1.id ≠ q2.id) (hd13 : q1.id ≠ q3.id) (hd23 : q2.id ≠ q3.id)
    (hcur : s.currentTurnPlayerId = (seat4 q0 q1 q2 q3 j).id) :
    getCurrentPlayer s = some (seat4 q0 q1 q2 q3 j) := by
  unfold getCurrentPlayer
  rw [hps, hcur]
  fin_cases j <;>
    simp [List.find?, seat4, hd01, hd02, hd03, hd12, hd13, hd23]

theorem findIdx_four (q0 q1 q2 q3 : Player) (j : Fin 4)
    (hd01 : q0.id ≠ q1.id) (hd02 : q0.id ≠ q2.id) (hd03 : q0.id ≠ q3.id)
    (hd12 : q1.id ≠ q2.id) (hd13 : q1.id ≠ q3.id) (hd23 : q2.id ≠ q3.id) :
    [q0, q1, q2, q3].findIdx? (fun p => p.id = (seat4 q0 q1 q2 q3 j).id) =
      some j.val := by
  fin_cases j <;>
    simp [List.findIdx?_cons, seat4, hd01, hd02, hd03, hd12, hd13, hd23]

theorem nextTurn_four (now : Int) (s : GameState) (q0 q1 q2 q3 : Player) (j : Fin 4)
    (hps : s.players = [q0, q1, q2, q3])
    (hw : s.winnerTeam = none)
    (hd01 : q0.id ≠ q1.id) (hd02 : q0.id ≠ q2.id) (hd03 : q0.id ≠ q3.id)
    (hd12 : q1.id ≠ q2.id) (hd13 : q1.id ≠ q3.id) (hd23 : q2.id ≠ q3.id)
    (hcur : s.currentTurnPlayerId = (seat4 q0 q1 q2 q3 j).id) :
    nextTurn now s = startTurnTimer now
      { s with currentTurnPlayerId := (seat4 q0 q1 q2 q3 (j + 1)).id } := by
  simp only [nextTurn, hw, Option.isSome_none]
  rw [hcur]
  have hidx := findIdx_four q0 q1 q2 q3 j hd01 hd02 hd03 hd12 hd13 hd23
  fin_cases j <;>
    · simp only [seat4] at hidx ⊢
      rw [hps]
      simp [hidx, List.get?, seat4]
end Domino

namespace Domino
theorem pass_step (now : Int) (s : GameState) (q0 q1 q2 q3 : Player) (j : Fin 4)
    (hps : s.players = [q0, q1, q2, q3])
    (hw : s.winnerTeam = none)
    (hd01 : q0.id ≠ q1.id) (hd02 : q0.id ≠ q2.id) (hd03 : q0.id ≠ q3.id)
    (hd12 : q1.id ≠ q2.id) (hd13 : q1.id ≠ q3.id) (hd23 : q2.id ≠ q3.id)
    (hcur : s.currentTurnPlayerId = (seat4 q0 q1 q2 q3 j).id)
    (hnm : hasValidMove s.board s.handNumber (seat4 q0 q1 q2 q3 j).hand = false)
    (h4 : s.consecutivePasses + 1 ≠ 4) :
    autoPass now s = startTurnTimer now
      { s with consecutivePasses := s.consecutivePasses + 1,
               currentTurnPlayerId := (seat4 q0 q1 q2 q3 (j + 1)).id } := by
  have hgcp := getCurrentPlayer_four s q0 q1 q2 q3 j hps hd01 hd02 hd03 hd12 hd13 hd23 hcur
  unfold autoPass
  simp only [passTurn, ne_eq, not_true_eq_false, if_false, hgcp, hnm]
  have hgcp1 : getCurrentPlayer { s with consecutivePasses := s.consecutivePasses + 1 } =
      some (seat4 q0 q1 q2 q3 j) := hgcp
  simp only [hgcp1, hnm, Bool.false_eq_true, if_false]
  rw [ite_self]
  simp only [passContinue]
  rw [if_neg h4]
  exact nextTurn_four now _ q0 q1 q2 q3 j hps hw hd01 hd02 hd03 hd12 hd13 hd23 hcur
end Domino

namespace Domino
theorem pass_step_tranque (now : Int) (s : GameState) (q0 q1 q2 q3 : Player) (j : Fin 4)
    (hps : s.players = [q0, q1, q2, q3])
    (hw : s.winnerTeam = none)
    (hd01 : q0.id ≠ q1.id) (hd02 : q0.id ≠ q2.id) (hd03 : q0.id ≠ q3.id)
    (hd12 : q1.id ≠ q2.id) (hd13 : q1.id ≠ q3.id) (hd23 : q2.id ≠ q3.id)
    (hcur : s.currentTurnPlayerId = (seat4 q0 q1 q2 q3 j).id)
    (hnm : hasValidMove s.board s.handNumber (seat4 q0 q1 q2 q3 j).hand = false)
    (hcnt : s.consecutivePasses = 3) :
    autoPass now s = handleTranque { s with consecutivePasses := 4 } := by
  have hgcp := getCurrentPlayer_four s q0 q1 q2 q3 j hps hd01 hd02 hd03 hd12 hd13 hd23 hcur
  unfold autoPass
  simp only [passTurn, ne_eq, not_true_eq_false, if_false, hgcp, hnm]
  have hgcp1 : getCurrentPlayer { s with consecutivePasses := s.consecutivePasses + 1 } =
      some (seat4 q0 q1 q2 q3 j) := hgcp
  simp only [hgcp1, hnm, Bool.false_eq_true, if_false]
  rw [ite_self]
  simp only [passContinue, hcnt]
  norm_num
end Domino

namespace Domino
theorem handleTranque_four (s : GameState) (q0 q1 q2 q3 : Player) (j : Fin 4)
    (hps : s.players = [q0, q1, q2, q3])
    (hd01 : q0.id ≠ q1.id) (hd02 : q0.id ≠ q2.id) (hd03 : q0.id ≠ q3.id)
    (hd12 : q1.id ≠ q2.id) (hd13 : q1.id ≠ q3.id) (hd23 : q2.id ≠ q3.id)
    (hcur : s.currentTurnPlayerId = (seat4 q0 q1 q2 q3 j).id) :
    handleTranque s = handleWin
      (if sumHand (seat4 q0 q1 q2 q3 j).hand < sumHand (seat4 q0 q1 q2 q3 (j + 1)).hand
       then seat4 q0 q1 q2 q3 j else seat4 q0 q1 q2 q3 (j + 1))
      WinType.tranque false s := by
  have hidx := findIdx_four q0 q1 q2 q3 j hd01 hd02 hd03 hd12 hd13 hd23
  simp only [handleTranque, hps, hcur, hidx]
  fin_cases j <;>
    · simp only [seat4] at *
      simp [jsGet, List.get?, Int.tmod, seat4]
end Domino

namespace Domino
theorem handleWin_tranque_spec (w : Player) (s : GameState) :
    (handleWin w WinType.tranque false s).winReason = some WinReason.tranque ∧
    (handleWin w WinType.tranque false s).handWinnerId = some w.id ∧
    (handleWin w WinType.tranque false s).handPoints = some (totalPips s.players) ∧
    (handleWin w WinType.tranque false s).teamScores =
      s.teamScores.add w.team (totalPips s.players) := by
  simp only [handleWin, totalPips, Bool.and_false, Bool.false_eq_true, if_false]
  split
  all_goals dsimp only
  all_goals refine ⟨rfl, rfl, ?_, ?_⟩
  all_goals simp
end Domino

namespace Domino
theorem four_pass_tranque (now1 now2 now3 now4 : Int) (s : GameState)
    (q0 q1 q2 q3 : Player) (j : Fin 4)
    (hps : s.players = [q0, q1, q2, q3])
    (hw : s.winnerTeam = none)
    (hd01 : q0.id ≠ q1.id) (hd02 : q0.id ≠ q2.id) (hd03 : q0.id ≠ q3.id)
    (hd12 : q1.id ≠ q2.id) (hd13 : q1.id ≠ q3.id) (hd23 : q2.id ≠ q3.id)
    (hcnt : s.consecutivePasses = 0)
    (hcur : s.currentTurnPlayerId = (seat4 q0 q1 q2 q3 (j + 1)).id)
    (hnm : ∀ k : Fin 4, hasValidMove s.board s.handNumber (seat4 q0 q1 q2 q3 k).hand = false) :
    (autoPass now4 (autoPass now3 (autoPass now2 (autoPass now1 s)))).winReason =
        some WinReason.tranque ∧
    (autoPass now4 (autoPass now3 (autoPass now2 (autoPass now1 s)))).handWinnerId =
      some (if sumHand (seat4 q0 q1 q2 q3 j).hand <
              sumHand (seat4 q0 q1 q2 q3 (j + 1)).hand
            then (seat4 q0 q1 q2 q3 j).id else (seat4 q0 q1 q2 q3 (j + 1)).id) ∧
    (autoPass now4 (autoPass now3 (autoPass now2 (autoPass now1 s)))).handPoints =
      some (totalPips s.players) ∧
    (autoPass now4 (autoPass now3 (autoPass now2 (autoPass now1 s)))).teamScores =
      s.teamScores.add
        (if sumHand (seat4 q0 q1 q2 q3 j).hand <
              sumHand (seat4 q0 q1 q2 q3 (j + 1)).hand
         then (seat4 q0 q1 q2 q3 j).team else (seat4 q0 q1 q2 q3 (j + 1)).team)
        (totalPips s.players) := by
  rw [pass_step now1 s q0 q1 q2 q3 (j + 1) hps hw hd01 hd02 hd03 hd12 hd13 hd23 hcur
      (hnm (j + 1)) (by omega)]
  rw [pass_step now2 _ q0 q1 q2 q3 (j + 1 + 1)]
  case hps => exact hps
  case hw => exact hw
  case hd01 => exact hd01
  case hd02 => exact hd02
  case hd03 => exact hd03
  case hd12 => exact hd12
  case hd13 => exact hd13
  case hd23 => exact hd23
  case hcur => rfl
  case hnm => exact hnm (j + 1 + 1)
  case h4 => exact show s.consecutivePasses + 1 + 1 ≠ 4 by omega
  rw [pass_step now3 _ q0 q1 q2 q3 (j + 1 + 1 + 1)]
  case hps => exact hps
  case hw => exact hw
  case hd01 => exact hd01
  case hd02 => exact hd02
  case hd03 => exact hd03
  case hd12 => exact hd12
  case hd13 => exact hd13
  case hd23 => exact hd23
  case hcur => rfl
  case hnm => exact hnm (j + 1 + 1 + 1)
  case h4 => exact show s.consecutivePasses + 1 + 1 + 1 ≠ 4 by omega
  rw [pass_step_tranque now4 _ q0 q1 q2 q3 (j + 1 + 1 + 1 + 1)]
  case hps => exact hps
  case hw => exact hw
  case hd01 => exact hd01
  case hd02 => exact hd02
  case hd03 => exact hd03
  case hd12 => exact hd12
  case hd13 => exact hd13
  case hd23 => exact hd23
  case hcur => rfl
  case hnm => exact hnm (j + 1 + 1 + 1 + 1)
  case hcnt => exact show s.consecutivePasses + 1 + 1 + 1 = 3 by omega
  rw [handleTranque_four _ q0 q1 q2 q3 (j + 1 + 1 + 1 + 1)]
  case hps => exact hps
  case hd01 => exact hd01
  case hd02 => exact hd02
  case hd03 => exact hd03
  case hd12 => exact hd12
  case hd13 => exact hd13
  case hd23 => exact hd23
  case hcur => rfl
  have hj4 : j + 1 + 1 + 1 + 1 = j := by
    fin_cases j <;> rfl
  rw [hj4]
  obtain ⟨hA, hB, hC, hD⟩ := handleWin_tranque_spec
    (if sumHand (seat4 q0 q1 q2 q3 j).hand < sumHand (seat4 q0 q1 q2 q3 (j + 1)).hand
     then seat4 q0 q1 q2 q3 j else seat4 q0 q1 q2 q3 (j + 1)) _
  refine ⟨hA, ?_, ?_, ?_⟩
  · rw [hB]
    split <;> rfl
  · exact hC.trans rfl
  · exact hD.trans (by split <;> rfl)
end Domino

namespace Domino
theorem handleWin_handWinnerId (w : Player) (ty : WinType) (cap : Bool) (s : GameState) :
    (handleWin w ty cap s).handWinnerId = some w.id := by
  simp only [handleWin]
  repeat' split
  all_goals rfl

def eraseAt (idx : Nat) (q : Player) : Player :=
  { q with hand := q.hand.eraseIdx idx }

theorem placePiece_accept_inversion (now : Int) (pid : String) (raw : Piece) (side : Side)
    (s r : GameState)
    (h : placePiece now pid raw side s = (true, r)) (hr : r.handWinnerId = none) :
    ∃ (idx : Nat) (board1 : List Piece),
      r = nextTurn now
        { s with board := board1,
                 players := updateFirst pid (eraseAt idx) s.players,
                 consecutivePasses := 0 } := by
  simp only [placePiece] at h
  split at h
  · simp at h
  · split at h
    · simp at h
    · split at h
      · simp at h
      · rename_i player hfind idxopt idx hidx
        split at h
        · split at h
          · simp at h
          · split at h
            · simp only [Prod.mk.injEq, true_and] at h
              rw [← h] at hr
              rw [handleWin_handWinnerId] at hr
              cases hr
            · simp only [Prod.mk.injEq, true_and] at h
              exact ⟨idx, s.board ++ [player.hand.getD idx (0, 0)], h.symm⟩
        · split at h
          · simp at h
          · rename_i pb pp board1 horient
            split at h
            · simp only [Prod.mk.injEq, true_and] at h
              rw [← h] at hr
              rw [handleWin_handWinnerId] at hr
              cases hr
            · simp only [Prod.mk.injEq, true_and] at h
              exact ⟨idx, board1, h.symm⟩

def upd4 (f : Player → Player) (i k : Fin 4) (q : Player) : Player :=
  if i = k then f q else q

theorem upd4_idf (f : Player → Player) (hfid : ∀ p : Player, (f p).id = p.id)
    (i k : Fin 4) (q : Player) : (upd4 f i k q).id = q.id := by
  unfold upd4
  split
  · exact hfid q
  · rfl

theorem seat4_mem (q0 q1 q2 q3 : Player) (k : Fin 4) :
    seat4 q0 q1 q2 q3 k ∈ [q0, q1, q2, q3] := by
  fin_cases k <;> simp [seat4]

theorem seat4_upd4 (f : Player → Player) (i k : Fin 4) (q0 q1 q2 q3 : Player) :
    seat4 (upd4 f i 0 q0) (upd4 f i 1 q1) (upd4 f i 2 q2) (upd4 f i 3 q3) k =
      upd4 f i k (seat4 q0 q1 q2 q3 k) := by
  fin_cases k <;> rfl

theorem updateFirst_four (f : Player → Player) (q0 q1 q2 q3 : Player) (i : Fin 4)
    (hd01 : q0.id ≠ q1.id) (hd02 : q0.id ≠ q2.id) (hd03 : q0.id ≠ q3.id)
    (hd12 : q1.id ≠ q2.id) (hd13 : q1.id ≠ q3.id) (hd23 : q2.id ≠ q3.id) :
    updateFirst (seat4 q0 q1 q2 q3 i).id f [q0, q1, q2, q3] =
      [upd4 f i 0 q0, upd4 f i 1 q1, upd4 f i 2 q2, upd4 f i 3 q3] := by
  fin_cases i <;>
    simp +decide [updateFirst, seat4, upd4, hd01, hd02, hd03, hd12, hd13, hd23,
      Ne.symm hd01, Ne.symm hd02, Ne.symm hd03, Ne.symm hd12, Ne.symm hd13, Ne.symm hd23]
end Domino

namespace Domino
/-- C2: when a successful placement is followed by four passes (every seat
left without a legal move), the hand closes as a tranque whose blocking
seat is the seat of the last placer: the pip sums of that seat's hand and
of the hand of the seat one position after it are compared, the strictly
lower sum wins and an exact tie goes to the opponent of the blocker, the
winning team is credited with the pip sum of every tile still held across
all four hands, the win reason is tranque and no capicua bonus is added. -/
theorem tranque_blocker_is_last_placer (now0 now1 now2 now3 now4 : Int)
    (raw : Piece) (side : Side) (s r : GameState) (p0 p1 p2 p3 : Player) (i : Fin 4)
    (hps : s.players = [p0, p1, p2, p3])
    (hw : s.winnerTeam = none)
    (hd01 : p0.id ≠ p1.id) (hd02 : p0.id ≠ p2.id) (hd03 : p0.id ≠ p3.id)
    (hd12 : p1.id ≠ p2.id) (hd13 : p1.id ≠ p3.id) (hd23 : p2.id ≠ p3.id)
    (hcur : s.currentTurnPlayerId = (seat4 p0 p1 p2 p3 i).id)
    (hplace : placePiece now0 s.currentTurnPlayerId raw side s = (true, r))
    (hnowin : r.handWinnerId = none)
    (hnm : ∀ p ∈ r.players, hasValidMove r.board r.handNumber p.hand = false) :
    ∃ n0 n1 n2 n3 : Player,
      r.players = [n0, n1, n2, n3] ∧
      (seat4 n0 n1 n2 n3 i).id = (seat4 p0 p1 p2 p3 i).id ∧
      (autoPass now4 (autoPass now3 (autoPass now2 (autoPass now1 r)))).winReason =
        some WinReason.tranque ∧
      (autoPass now4 (autoPass now3 (autoPass now2 (autoPass now1 r)))).handWinnerId =
        some (if sumHand (seat4 n0 n1 n2 n3 i).hand <
                sumHand (seat4 n0 n1 n2 n3 (i + 1)).hand
              then (seat4 n0 n1 n2 n3 i).id else (seat4 n0 n1 n2 n3 (i + 1)).id) ∧
      (autoPass now4 (autoPass now3 (autoPass now2 (autoPass now1 r)))).handPoints =
        some (totalPips r.players) ∧
      (autoPass now4 (autoPass now3 (autoPass now2 (autoPass now1 r)))).teamScores =
        r.teamScores.add
          (if sumHand (seat4 n0 n1 n2 n3 i).hand <
                sumHand (seat4 n0 n1 n2 n3 (i + 1)).hand
           then (seat4 n0 n1 n2 n3 i).team else (seat4 n0 n1 n2 n3 (i + 1)).team)
          (totalPips r.players) := by
  obtain ⟨idx, board1, hr_eq⟩ :=
    placePiece_accept_inversion now0 s.currentTurnPlayerId raw side s r hplace hnowin
  subst hr_eq
  have hfid : ∀ p : Player, (eraseAt idx p).id = p.id := fun p => rfl
  have hseat : ∀ k : Fin 4,
      (seat4 (upd4 (eraseAt idx) i 0 p0) (upd4 (eraseAt idx) i 1 p1)
        (upd4 (eraseAt idx) i 2 p2) (upd4 (eraseAt idx) i 3 p3) k).id =
      (seat4 p0 p1 p2 p3 k).id := by
    intro k
    rw [seat4_upd4]
    exact upd4_idf (eraseAt idx) hfid i k _
  have hupd : updateFirst s.currentTurnPlayerId (eraseAt idx) s.players =
      [upd4 (eraseAt idx) i 0 p0, upd4 (eraseAt idx) i 1 p1,
       upd4 (eraseAt idx) i 2 p2, upd4 (eraseAt idx) i 3 p3] := by
    rw [hps, hcur]
    exact updateFirst_four (eraseAt idx) p0 p1 p2 p3 i hd01 hd02 hd03 hd12 hd13 hd23
  have hd01n : (upd4 (eraseAt idx) i 0 p0).id ≠ (upd4 (eraseAt idx) i 1 p1).id := by
    simp only [upd4_idf (eraseAt idx) hfid]
    exact hd01
  have hd02n : (upd4 (eraseAt idx) i 0 p0).id ≠ (upd4 (eraseAt idx) i 2 p2).id := by
    simp only [upd4_idf (eraseAt idx) hfid]
    exact hd02
  have hd03n : (upd4 (eraseAt idx) i 0 p0).id ≠ (upd4 (eraseAt idx) i 3 p3).id := by
    simp only [upd4_idf (eraseAt idx) hfid]
    exact hd03
  have hd12n : (upd4 (eraseAt idx) i 1 p1).id ≠ (upd4 (eraseAt idx) i 2 p2).id := by
    simp only [upd4_idf (eraseAt idx) hfid]
    exact hd12
  have hd13n : (upd4 (eraseAt idx) i 1 p1).id ≠ (upd4 (eraseAt idx) i 3 p3).id := by
    simp only [upd4_idf (eraseAt idx) hfid]
    exact hd13
  have hd23n : (upd4 (eraseAt idx) i 2 p2).id ≠ (upd4 (eraseAt idx) i 3 p3).id := by
    simp only [upd4_idf (eraseAt idx) hfid]
    exact hd23
  have hnt := nextTurn_four now0
      { s with board := board1,
               players := updateFirst s.currentTurnPlayerId (eraseAt idx) s.players,
               consecutivePasses := 0 }
      (upd4 (eraseAt idx) i 0 p0) (upd4 (eraseAt idx) i 1 p1)
      (upd4 (eraseAt idx) i 2 p2) (upd4 (eraseAt idx) i 3 p3) i
      hupd hw hd01n hd02n hd03n hd12n hd13n hd23n
      (hcur.trans (hseat i).symm)
  rw [hnt] at hnm ⊢
  refine ⟨upd4 (eraseAt idx) i 0 p0, upd4 (eraseAt idx) i 1 p1,
    upd4 (eraseAt idx) i 2 p2, upd4 (eraseAt idx) i 3 p3, hupd, hseat i, ?_⟩
  have hnm4 := fun k : Fin 4 =>
    hnm _ (hupd.symm ▸ seat4_mem (upd4 (eraseAt idx) i 0 p0) (upd4 (eraseAt idx) i 1 p1)
      (upd4 (eraseAt idx) i 2 p2) (upd4 (eraseAt idx) i 3 p3) k)
  exact four_pass_tranque now1 now2 now3 now4 _ _ _ _ _ i hupd hw
    hd01n hd02n hd03n hd12n hd13n hd23n rfl rfl hnm4
end Domino

namespace Domino
/-- Players for the concrete tranque trace: seat 0 holds the matching
(6,0) beside a junk double, nobody can follow the open values 5 and 0. -/
def tqPlayers : List Player :=
  [{ id := "t0", name := "t0", hand := [(6, 0), (3, 3)], score := 0, team := Team.A, position := 0 },
   { id := "t1", name := "t1", hand := [(1, 2)], score := 0, team := Team.B, position := 1 },
   { id := "t2", name := "t2", hand := [(3, 4)], score := 0, team := Team.A, position := 2 },
   { id := "t3", name := "t3", hand := [(4, 4)], score := 0, team := Team.B, position := 3 }]

def tqState : GameState :=
  { board := [(5, 6)], players := tqPlayers, currentTurnPlayerId := "t0",
    turnDeadline := 0, winnerTeam := none, consecutivePasses := 0, handNumber := 2,
    handWinnerId := none, winReason := none, handPoints := none,
    teamScores := { A := 0, B := 0 }, lastWinnerId := none }

def tqAfter : GameState := (placePiece 100 tqState.currentTurnPlayerId (6, 0) Side.tail tqState).2

/-- Witness for C2 at the concrete trace: seat 0 places (6,0) on the board
[(5,6)] and the four subsequent passes close the hand by tranque. -/
theorem tranque_blocker_witness :
    placePiece 100 tqState.currentTurnPlayerId (6, 0) Side.tail tqState = (true, tqAfter) ∧
    (∃ n0 n1 n2 n3 : Player,
      tqAfter.players = [n0, n1, n2, n3] ∧
      (seat4 n0 n1 n2 n3 0).id =
        (seat4 (tqPlayers.get ⟨0, by decide⟩) (tqPlayers.get ⟨1, by decide⟩)
          (tqPlayers.get ⟨2, by decide⟩) (tqPlayers.get ⟨3, by decide⟩) 0).id ∧
      (autoPass 104 (autoPass 103 (autoPass 102 (autoPass 101 tqAfter)))).winReason =
        some WinReason.tranque ∧
      (autoPass 104 (autoPass 103 (autoPass 102 (autoPass 101 tqAfter)))).handWinnerId =
        some (if sumHand (seat4 n0 n1 n2 n3 0).hand <
                sumHand (seat4 n0 n1 n2 n3 (0 + 1)).hand
              then (seat4 n0 n1 n2 n3 0).id else (seat4 n0 n1 n2 n3 (0 + 1)).id) ∧
      (autoPass 104 (autoPass 103 (autoPass 102 (autoPass 101 tqAfter)))).handPoints =
        some (totalPips tqAfter.players) ∧
      (autoPass 104 (autoPass 103 (autoPass 102 (autoPass 101 tqAfter)))).teamScores =
        tqAfter.teamScores.add
          (if sumHand (seat4 n0 n1 n2 n3 0).hand <
                sumHand (seat4 n0 n1 n2 n3 (0 + 1)).hand
           then (seat4 n0 n1 n2 n3 0).team else (seat4 n0 n1 n2 n3 (0 + 1)).team)
          (totalPips tqAfter.players)) :=
  ⟨by decide,
   tranque_blocker_is_last_placer 100 101 102 103 104 (6, 0) Side.tail tqState tqAfter
     (tqPlayers.get ⟨0, by decide⟩) (tqPlayers.get ⟨1, by decide⟩)
     (tqPlayers.get ⟨2, by decide⟩) (tqPlayers.get ⟨3, by decide⟩) 0
     (by decide) rfl (by decide) (by decide) (by decide) (by decide) (by decide) (by decide)
     (by decide) (by decide) (by decide) (by decide)⟩
end Domino
